import Mathlib

/-!
Verification development for `scripts/extract_musicxml_lyrics.py`.

The script converts lyric/timing information in a MusicXML part into
LRC-style time-coded lyric lines, and can merge word-level timings onto an
existing LRC file.  We shallowly embed the script's pure core: positions are
exact rationals (`ℚ`, modelling Python `Fraction`), elapsed seconds are also
modelled as `ℚ` (the script uses floats; all claims under study concern exact
decimal values or order relations preserved by this embedding), strings are
Lean `String`s with Python string primitives modelled character-wise, and
fallible steps return `Option`/`Except`.
-/

/-! ## Python string primitives, modelled on the character list level -/

/-- Python `str.strip()`: drop leading and trailing whitespace. -/
def py_strip (s : String) : String :=
  String.mk (((s.data.dropWhile Char.isWhitespace).reverse.dropWhile Char.isWhitespace).reverse)

/-- Python `str.rstrip()`: drop trailing whitespace. -/
def py_rstrip (s : String) : String :=
  String.mk ((s.data.reverse.dropWhile Char.isWhitespace).reverse)

/-- Python `str.lstrip()` applied to a character list: drop leading whitespace. -/
def py_lstrip_data (cs : List Char) : List Char :=
  cs.dropWhile Char.isWhitespace

/-- Python `s[:-1]`: drop the last character. -/
def py_drop_last (s : String) : String :=
  String.mk s.data.dropLast

/-- Python `s.endswith("-")`: the last character is a hyphen. -/
def ends_with_hyphen (s : String) : Bool :=
  s.data.getLast? = some '-'

/-- Value of a non-empty all-digit character run. -/
def digits_val (cs : List Char) : Option ℕ :=
  if cs = [] then none
  else if cs.all Char.isDigit then
    some (cs.foldl (fun acc c => 10 * acc + (c.toNat - 48)) 0)
  else none

/-- Python `int()` on a character list: optional sign, then decimal digits
(`none` models the `ValueError` raised on anything else). -/
def py_int_data (cs : List Char) : Option ℤ :=
  match cs with
  | '-' :: rest => (digits_val rest).map (fun n => -(n : ℤ))
  | '+' :: rest => (digits_val rest).map (fun n => (n : ℤ))
  | _ => (digits_val cs).map (fun n => (n : ℤ))

/-- Python `int(s.strip())`, returning `none` on a `ValueError`. -/
def py_int_opt (s : String) : Option ℤ :=
  py_int_data (py_strip s).data

/-- Character-level model of Python `text.split(" ")` (single-space separator,
empty pieces kept). -/
def split_space_data : List Char → List (List Char)
  | [] => [[]]
  | c :: cs =>
    if c = ' ' then [] :: split_space_data cs
    else
      match split_space_data cs with
      | [] => [[c]]
      | t :: ts => (c :: t) :: ts

/-- Character-level model of Python `" ".join(pieces)`. -/
def join_space_data : List (List Char) → List Char
  | [] => []
  | t :: ts =>
    match ts with
    | [] => t
    | _ :: _ => t ++ ' ' :: join_space_data ts

/-- Python `text.split(" ")` on strings. -/
def py_split_space (s : String) : List String :=
  (split_space_data s.data).map String.mk

/-- Python `" ".join(tokens)` on strings. -/
def py_join_space (ts : List String) : String :=
  String.mk (join_space_data (ts.map String.data))

/-- The character class shared by both stripping regexes of
`normalize_token`.  In the script the patterns are raw strings with doubled
backslashes, so each doubled backslash inside the class is one literal
backslash and the bare `]` of the `[`-then-`]` pair closes the class early:
the class holds exactly the double quote (34), the single quote (39), the
curly quotes, the backslash (92), the parentheses and `[`. -/
def strip_char_class : List Char :=
  [Char.ofNat 34, Char.ofNat 39, '“', '”', '‘', '’', Char.ofNat 92, '(', ')', '[']

/-- The literal characters the first stripping regex requires right after
the class character — the leftover `{}<>` (123, 125, `<`, `>`) of the
mis-closed class — before its final one-or-more run of `]`. -/
def p1_literal_tail : List Char := [Char.ofNat 123, Char.ofNat 125, '<', '>']

/-- The literal characters the second stripping regex requires right after
the class character — the leftover `{}<>:;,` of the mis-closed class —
before its literal backslash, dot, optional backslash, `!` and final
one-or-more run of `]`. -/
def p2_literal_tail : List Char :=
  [Char.ofNat 123, Char.ofNat 125, '<', '>', ':', ';', ',']

/-- Model of `re.sub` with the first stripping pattern of `normalize_token`:
after the early class close the pattern is start-anchored and matches one
class character, the literal run `{}<>`, then a greedy non-empty run of `]`;
the substitution removes that prefix when it is present and otherwise
leaves the token unchanged. -/
def re_sub_lead (cs : List Char) : List Char :=
  match cs with
  | c :: d1 :: d2 :: d3 :: d4 :: r =>
    if c ∈ strip_char_class ∧ [d1, d2, d3, d4] = p1_literal_tail ∧ r.head? = some ']'
    then r.dropWhile (fun d => d = ']')
    else cs
  | _ => cs

/-- The closing run of the second stripping pattern: a `!` followed by a
non-empty run of `]` reaching the end of the string. -/
def p2_close (r : List Char) : Bool :=
  match r with
  | c :: rest => c = '!' && !rest.isEmpty && rest.all (fun d => d = ']')
  | [] => false

/-- Whether the second stripping pattern of `normalize_token` matches the
whole of `t` (the pattern is end-anchored, so a match starting at a position
covers the entire remaining suffix): one class character, the literal run
`{}<>:;,`, a literal backslash, any character other than a newline (the
pattern's now un-escaped dot), an optional second backslash (its now
un-escaped `?` quantifies the preceding backslash), then the closing
`!`-and-brackets run. -/
def p2_match (t : List Char) : Bool :=
  match t with
  | c :: d1 :: d2 :: d3 :: d4 :: d5 :: d6 :: d7 :: b :: a :: r =>
    decide (c ∈ strip_char_class)
      && decide ([d1, d2, d3, d4, d5, d6, d7] = p2_literal_tail)
      && decide (b = Char.ofNat 92) && decide (a ≠ Char.ofNat 10)
      && (p2_close r ||
          match r with
          | b2 :: r2 => decide (b2 = Char.ofNat 92) && p2_close r2
          | [] => false)
  | _ => false

/-- Model of `re.sub` with the second stripping pattern: remove the leftmost
match — which, being end-anchored, is a suffix — keeping the prefix before
it. -/
def re_sub_trail : List Char → List Char
  | [] => []
  | c :: rest => if p2_match (c :: rest) then [] else c :: re_sub_trail rest

/-- The script's `normalize_token`: apply the two `re.sub` strips — whose
patterns, because of the doubled backslashes in the raw strings, demand the
literal mis-closed-class tails and so leave ordinary tokens, including
punctuation-only ones such as `!` or `...`, untouched — then strip
whitespace and lower-case. -/
def normalize_token (token : String) : String :=
  let c1 := re_sub_lead token.data
  let c2 := re_sub_trail c1
  let c3 := ((c2.dropWhile Char.isWhitespace).reverse.dropWhile Char.isWhitespace).reverse
  String.mk (c3.map Char.toLower)

/-- Numeric value of a digit character. -/
def digit_val (c : Char) : ℕ := c.toNat - 48

/-- `parse_time_tag` from the script: match `[mm:ss.cc]` exactly and return
`minutes * 60 + seconds + centis / 100` seconds. -/
def parse_time_tag (tag : String) : Option ℚ :=
  match tag.data with
  | ['[', m1, m2, ':', s1, s2, '.', c1, c2, ']'] =>
    if m1.isDigit ∧ m2.isDigit ∧ s1.isDigit ∧ s2.isDigit ∧ c1.isDigit ∧ c2.isDigit then
      some ((10 * digit_val m1 + digit_val m2 : ℕ) * 60
        + (10 * digit_val s1 + digit_val s2 : ℕ)
        + ((10 * digit_val c1 + digit_val c2 : ℕ) : ℚ) / 100)
    else none
  | _ => none

/-- Python `int(round(x))`: round half to even. -/
def py_round (q : ℚ) : ℤ :=
  let fl := ⌊q⌋
  let frac := q - fl
  if frac < 1 / 2 then fl
  else if frac > 1 / 2 then fl + 1
  else if fl % 2 = 0 then fl else fl + 1

/-- Python `f"{n:02d}"` for the values produced here: zero-pad to two digits. -/
def pad2 (n : ℤ) : String :=
  if 0 ≤ n ∧ n < 10 then "0" ++ toString n else toString n

/-- `format_timecode` from the script: centisecond rounding, then
`mm:ss.cc` via Python floor division/modulo (`Int.fdiv`/`Int.fmod`). -/
def format_timecode (seconds : ℚ) : String :=
  let total_centis := py_round (seconds * 100)
  pad2 (total_centis.fdiv 6000) ++ ":" ++ pad2 ((total_centis.fdiv 100).fmod 60)
    ++ "." ++ pad2 (total_centis.fmod 100)

/-- The inline line formatting in `extract_lyrics` (same centisecond math as
`format_timecode`, with surrounding brackets and the lyric text). -/
def format_line (seconds : ℚ) (text : String) : String :=
  let total_centis := py_round (seconds * 100)
  "[" ++ pad2 (total_centis.fdiv 6000) ++ ":" ++ pad2 ((total_centis.fdiv 100).fmod 60)
    ++ "." ++ pad2 (total_centis.fmod 100) ++ "] " ++ text

/-! ## Data model -/

/-- A lyric event `(position, text, sequence index)`. -/
abbrev LyricEvent := ℚ × String × ℕ

/-- A tempo event `(position, beats per minute)`.  The script stores the
tempo as a Python float; the claims under study only involve its sign and
exact ratios, so it is embedded as `ℚ`. -/
abbrev TempoEvent := ℚ × ℚ

/-! ## Event Collector (`collect_events`)

The XML tree is an external collaborator; we embed the shapes
`collect_events` consumes.  A `duration` child is kept as its raw text
(`Option String`, `none` when the node or its text is missing) because the
script's behaviour on unparseable durations is claim-relevant; other numeric
fields are embedded post-parse (`Option ℤ` / `Option ℚ`), with Python's
parse-failure defaulting noted at each use site. -/

/-- A measure child element, as read by `collect_events`. -/
inductive MusicElem where
  /-- `attributes` with an optional `divisions` value (`none` when the node
  or its text is absent). -/
  | attributes (divisions : Option ℤ)
  /-- `direction`: `tempo` is the result of `parse_tempo_from_direction`
  (sound tempo attribute or `per-minute` text), `offset` the optional raw
  offset integer (`none` also covers the `ValueError` default of 0). -/
  | direction (tempo : Option ℚ) (offset : Option ℤ)
  /-- bare `sound` element with an optional parsed tempo attribute. -/
  | sound (tempo : Option ℚ)
  /-- `note` with raw duration text, chord marker, and the non-missing
  `lyric/text` contents in document order. -/
  | note (duration : Option String) (is_chord : Bool) (lyrics : List String)
  /-- `backup` with raw duration text. -/
  | backup (duration : Option String)
  /-- `forward` with raw duration text. -/
  | forward (duration : Option String)
deriving DecidableEq

/-- A measure is its child elements in document order; a part is its
measures in document order. -/
abbrev Measure := List MusicElem

/-- State threaded by `collect_events` across elements. -/
structure CollectState where
  divisions : ℤ
  global_pos : ℚ
  current_pos : ℚ
  max_pos : ℚ
  lyric_events : List LyricEvent
  tempo_events : List TempoEvent
deriving DecidableEq

/-- `if duration_node is None or not duration_node.text: ... except ValueError`:
parse a note/backup/forward duration text, `none` on a missing node, empty
text, or parse failure. -/
def parse_duration_text : Option String → Option ℤ
  | none => none
  | some s => if s = "" then none else py_int_opt s

/-- Append one lyric event per non-empty lyric text, each stamped with the
current length of the event list as its sequence index. -/
def append_lyric_events (evs : List LyricEvent) (pos : ℚ) (texts : List String) :
    List LyricEvent :=
  texts.foldl (fun acc t => if t ≠ "" then acc ++ [(pos, py_strip t, acc.length)] else acc) evs

/-- One step of `collect_events` over a measure child. -/
def collect_step (s : CollectState) (e : MusicElem) : CollectState :=
  match e with
  | .attributes d =>
    match d with
    | none => s
    | some v => { s with divisions := v }
  | .direction tempo off =>
    match tempo with
    | none => s
    | some t =>
      let offset : ℚ :=
        match off with
        | none => 0
        | some o => (o : ℚ) / (s.divisions : ℚ)
      { s with tempo_events := s.tempo_events ++ [(s.global_pos + s.current_pos + offset, t)] }
  | .sound tempo =>
    match tempo with
    | none => s
    | some t =>
      { s with tempo_events := s.tempo_events ++ [(s.global_pos + s.current_pos, t)] }
  | .note dur chord lyrics =>
    match parse_duration_text dur with
    | none => s
    | some n =>
      let duration : ℚ := (n : ℚ) / (s.divisions : ℚ)
      let evs := append_lyric_events s.lyric_events (s.global_pos + s.current_pos) lyrics
      if chord then { s with lyric_events := evs }
      else
        let cp := s.current_pos + duration
        { s with lyric_events := evs, current_pos := cp,
                 max_pos := if cp > s.max_pos then cp else s.max_pos }
  | .backup dur =>
    match parse_duration_text dur with
    | none => s
    | some n => { s with current_pos := s.current_pos - (n : ℚ) / (s.divisions : ℚ) }
  | .forward dur =>
    match parse_duration_text dur with
    | none => s
    | some n =>
      let cp := s.current_pos + (n : ℚ) / (s.divisions : ℚ)
      { s with current_pos := cp, max_pos := if cp > s.max_pos then cp else s.max_pos }

/-- Process one measure: fresh cursor and high-water mark, then fold the
children; at measure end add `max_pos` to `global_pos` when positive. -/
def collect_measure (s : CollectState) (m : Measure) : CollectState :=
  let s1 := m.foldl collect_step { s with current_pos := 0, max_pos := 0 }
  if s1.max_pos > 0 then { s1 with global_pos := s1.global_pos + s1.max_pos } else s1

/-- Initial collector state: `divisions = 1`, everything else zero/empty. -/
def collect_init : CollectState :=
  { divisions := 1, global_pos := 0, current_pos := 0, max_pos := 0,
    lyric_events := [], tempo_events := [] }

/-- `collect_events`: fold the measures, then fail when no lyric event was
found. -/
def collect_events (part : List Measure) :
    Except String (List LyricEvent × List TempoEvent) :=
  let s := part.foldl collect_measure collect_init
  if s.lyric_events = [] then .error "No lyrics found in target part"
  else .ok (s.lyric_events, s.tempo_events)

/-! ## Tempo Map normalization and lyric sorting

Python's `list.sort(key=...)` is a stable sort; we model it extensionally as
a stable insertion sort (`List.insertionSort` inserts an element before the
first strictly-later element, preserving discovery order of key-equal
entries, exactly as a stable sort by key does). -/

/-- `tempo_events.sort(key=lambda x: x[0])`. -/
def sort_tempo (evs : List TempoEvent) : List TempoEvent :=
  evs.insertionSort (fun a b => a.1 ≤ b.1)

/-- `lyric_events.sort(key=lambda x: (x[0], x[2]))`: lexicographic on
(position, sequence index). -/
def sort_lyric (evs : List LyricEvent) : List LyricEvent :=
  evs.insertionSort (fun a b => a.1 < b.1 ∨ (a.1 = b.1 ∧ a.2.2 ≤ b.2.2))

/-- Tempo-map normalization, as performed identically in `extract_lyrics`
and `merge_enhanced_lrc`: sort by position; empty list becomes
`[(0, 120)]`; when the earliest position is `> 0`, prepend a synthetic
entry at position 0 with the earliest entry's tempo. -/
def normalize_tempo (tempo_events : List TempoEvent) : List TempoEvent :=
  match sort_tempo tempo_events with
  | [] => [((0 : ℚ), (120 : ℚ))]
  | (first_pos, first_tempo) :: rest =>
    if first_pos > 0 then ((0 : ℚ), first_tempo) :: (first_pos, first_tempo) :: rest
    else (first_pos, first_tempo) :: rest

/-- One iteration of the dedupe loop of `extract_lyrics`: drop an event when
its `(position, text)` key equals `last_key`, the key of the most recently
kept event. -/
def dedupe_body (acc : List LyricEvent × Option (ℚ × String)) (ev : LyricEvent) :
    List LyricEvent × Option (ℚ × String) :=
  let key := (ev.1, ev.2.1)
  match acc.2 with
  | some k => if k = key then acc else (acc.1 ++ [ev], some key)
  | none => (acc.1 ++ [ev], some key)

/-- The dedupe loop of `extract_lyrics` over the sorted events. -/
def dedupe_fold (evs : List LyricEvent) : List LyricEvent :=
  (evs.foldl dedupe_body (([] : List LyricEvent), (none : Option (ℚ × String)))).1

/-- Recursive restatement of `dedupe_fold`'s loop body, used in proofs. -/
def dedupe_go (k : Option (ℚ × String)) : List LyricEvent → List LyricEvent
  | [] => []
  | ev :: rest =>
    if k = some (ev.1, ev.2.1) then dedupe_go k rest
    else ev :: dedupe_go (some (ev.1, ev.2.1)) rest

/-! ## Position-to-Time Converter

The script contains the same forward scan twice: inline in `extract_lyrics`
(over `(position, text, index)` triples, producing output lines) and as the
closure `positions_to_times` inside `merge_enhanced_lrc` (over
`(position, text)` pairs).  Both are embedded separately, mirroring the
duplication.  `tempo_events[0][1]` is only well-defined for non-empty maps
(every caller normalizes first); the embedding totalizes the empty case with
the default entry `(0, 120)`. -/

/-- The `while` loop of the `positions_to_times` scan: consume tempo
breakpoints at positions `≤ p`, accruing `(breakpoint - cursor) * 60 / bpm`
seconds for each segment. -/
def ptt_advance (p : ℚ) (cpos ctime ctempo : ℚ) :
    List TempoEvent → ℚ × ℚ × ℚ × List TempoEvent
  | [] => (cpos, ctime, ctempo, [])
  | (next_pos, next_tempo) :: rest =>
    if next_pos ≤ p then
      ptt_advance p next_pos (ctime + (next_pos - cpos) * 60 / ctempo) next_tempo rest
    else (cpos, ctime, ctempo, (next_pos, next_tempo) :: rest)

/-- One iteration of the `positions_to_times` loop body: advance past due
breakpoints, then add the remaining partial segment when non-zero. -/
def ptt_step (p : ℚ) (cpos ctime ctempo : ℚ) (rest : List TempoEvent) :
    ℚ × ℚ × ℚ × List TempoEvent :=
  match ptt_advance p cpos ctime ctempo rest with
  | (c1, t1, tp1, r1) =>
    let delta := p - c1
    if delta ≠ 0 then (p, t1 + delta * 60 / tp1, tp1, r1) else (c1, t1, tp1, r1)

/-- The `positions_to_times` loop over the requested positions, emitting the
cursor time after each step. -/
def ptt_go (cpos ctime ctempo : ℚ) (rest : List TempoEvent) :
    List (ℚ × String) → List (ℚ × String)
  | [] => []
  | (p, text) :: ps =>
    let st := ptt_step p cpos ctime ctempo rest
    (st.2.1, text) :: ptt_go st.1 st.2.1 st.2.2.1 st.2.2.2 ps

/-- `positions_to_times` from `merge_enhanced_lrc`: scan state starts at
position 0, time 0, with the first tempo-map entry active. -/
def positions_to_times (tempo_events : List TempoEvent)
    (positions : List (ℚ × String)) : List (ℚ × String) :=
  ptt_go 0 0 (tempo_events.headD ((0 : ℚ), (120 : ℚ))).2 tempo_events.tail positions

/-- The `while` loop of the inline scan in `extract_lyrics` (lines 159-165
of the script); textually the same algorithm as `ptt_advance`. -/
def els_advance (p : ℚ) (cpos ctime ctempo : ℚ) :
    List TempoEvent → ℚ × ℚ × ℚ × List TempoEvent
  | [] => (cpos, ctime, ctempo, [])
  | (next_pos, next_tempo) :: rest =>
    if next_pos ≤ p then
      els_advance p next_pos (ctime + (next_pos - cpos) * 60 / ctempo) next_tempo rest
    else (cpos, ctime, ctempo, (next_pos, next_tempo) :: rest)

/-- One iteration of the inline scan's loop body in `extract_lyrics`. -/
def els_step (p : ℚ) (cpos ctime ctempo : ℚ) (rest : List TempoEvent) :
    ℚ × ℚ × ℚ × List TempoEvent :=
  match els_advance p cpos ctime ctempo rest with
  | (c1, t1, tp1, r1) =>
    let delta := p - c1
    if delta ≠ 0 then (p, t1 + delta * 60 / tp1, tp1, r1) else (c1, t1, tp1, r1)

/-- The inline scan of `extract_lyrics` over the (sorted, deduped) lyric
events, emitting `(elapsed seconds, text)` per event. -/
def els_go (cpos ctime ctempo : ℚ) (rest : List TempoEvent) :
    List LyricEvent → List (ℚ × String)
  | [] => []
  | (p, text, _) :: evs =>
    let st := els_step p cpos ctime ctempo rest
    (st.2.1, text) :: els_go st.1 st.2.1 st.2.2.1 st.2.2.2 evs

/-- The inline tempo-map scan of `extract_lyrics` as a whole. -/
def extract_scan (tempo_events : List TempoEvent) (events : List LyricEvent) :
    List (ℚ × String) :=
  els_go 0 0 (tempo_events.headD ((0 : ℚ), (120 : ℚ))).2 tempo_events.tail events

/-! ## The plain-output pipeline (`extract_lyrics`)

The XML parse and part lookup are boundary collaborators; the pipeline is
embedded from `collect_events` onwards. -/

/-- `extract_lyrics` after the part has been located: collect events,
normalize the tempo map, sort (and optionally dedupe) the lyric events,
convert positions to times, format one line per surviving event.  Returns
`(lines, raw sorted-event count, surviving events, normalized tempo map)`. -/
def extract_lyrics_pipeline (part : List Measure) (dedupe : Bool) :
    Except String (List String × ℕ × List LyricEvent × List TempoEvent) :=
  match collect_events part with
  | .error e => .error e
  | .ok (lyric_events, tempo_events) =>
    let tempo := normalize_tempo tempo_events
    let sorted := sort_lyric lyric_events
    let raw_count := sorted.length
    let events := if dedupe then dedupe_fold sorted else sorted
    let lines := (extract_scan tempo events).map (fun p => format_line p.1 p.2)
    .ok (lines, raw_count, events, tempo)

/-! ## Word Timing Builder (`build_word_timings`) -/

/-- The accumulating loop of `build_word_timings`: `buffer_text` and
`buffer_time` as in the script; a trailing-hyphen syllable is appended (minus
the hyphen) without flushing, any other syllable completes a word at the
buffer's start position; a leftover non-empty buffer flushes at the end. -/
def build_word_go (buffer_text : String) (buffer_time : Option ℚ) :
    List LyricEvent → List (ℚ × String)
  | [] =>
    match buffer_time with
    | some t => if buffer_text ≠ "" then [(t, buffer_text)] else []
    | none => []
  | (pos, text, _) :: rest =>
    let t := buffer_time.getD pos
    let cleaned := py_strip text
    if ends_with_hyphen cleaned then
      build_word_go (buffer_text ++ py_drop_last cleaned) (some t) rest
    else
      (t, buffer_text ++ cleaned) :: build_word_go "" none rest

/-- `build_word_timings` from the script. -/
def build_word_timings (lyric_events : List LyricEvent) : List (ℚ × String) :=
  build_word_go "" none lyric_events

/-! ## LRC reading (`read_lrc_lines`) -/

/-- `read_lrc_lines` on one raw line (the file read and `splitlines` are the
boundary): an empty line becomes `("", "")`; a line not starting with `[` or
without `]` keeps its raw text with an empty tag; otherwise split at the
first `]`, left-stripping the remainder. -/
def read_lrc_line (raw : String) : String × String :=
  if raw = "" then ("", "")
  else if raw.data.head? ≠ some '[' ∨ ']' ∉ raw.data then ("", raw)
  else
    let tag_end := (raw.data.takeWhile (fun c => c ≠ ']')).length
    (String.mk (raw.data.take (tag_end + 1)),
     String.mk (py_lstrip_data (raw.data.drop (tag_end + 1))))

/-- `read_lrc_lines` over the file's lines. -/
def read_lrc_lines (raw_lines : List String) : List (String × String) :=
  raw_lines.map read_lrc_line

/-- `last_lrc_time`: the last parseable time tag among the lines' non-empty
tags. -/
def last_lrc_time (lrc_lines : List (String × String)) : Option ℚ :=
  lrc_lines.foldl
    (fun last l =>
      if l.1 = "" then last
      else
        match parse_time_tag l.1 with
        | some t => some t
        | none => last)
    none

/-! ## LRC Token Aligner (`merge_enhanced_lrc`) -/

/-- The per-token loop of `merge_enhanced_lrc`: empty tokens are skipped;
tokens whose normalized form is empty are kept unchanged; otherwise the next
word timing (when any remain) is consumed and prefixed as `<time>`.  Returns
the enhanced tokens of this token list together with the word timings left
over for subsequent lines. -/
def enhance_tokens (word_times : List (String × String)) :
    List String → List String × List (String × String)
  | [] => ([], word_times)
  | token :: rest =>
    if token = "" then enhance_tokens word_times rest
    else if normalize_token token = "" then
      match enhance_tokens word_times rest with
      | (out, ws) => (token :: out, ws)
    else
      match word_times with
      | [] =>
        match enhance_tokens [] rest with
        | (out, ws) => (token :: out, ws)
      | (word_time, _) :: ws =>
        match enhance_tokens ws rest with
        | (out, ws2) => (("<" ++ word_time ++ ">" ++ token) :: out, ws2)

/-- The per-line loop of `merge_enhanced_lrc`: a line with empty text emits
its tag verbatim; otherwise the text is split on spaces, tokens are
enhanced, and the line is emitted as `f"{time_tag} {enhanced_text}".rstrip()`
(the script also computes a `next_times` list, zipped with the lines but
never used in the body; it is omitted as dead code — `zip` with it does not
truncate since it has the same length). -/
def align_lines (word_times : List (String × String)) :
    List (String × String) → List String
  | [] => []
  | (time_tag, text) :: rest =>
    if text = "" then time_tag :: align_lines word_times rest
    else
      match enhance_tokens word_times (py_split_space text) with
      | (out, ws) =>
        py_rstrip (time_tag ++ " " ++ py_join_space out) :: align_lines ws rest

/-- The single failure condition of `merge_enhanced_lrc`, carrying the two
compared values reported in the raised message: the last LRC tag time and
the (formatted, re-parsed) last word time. -/
inductive MergeError where
  | lengthMismatch (lrc_end musicxml_end : ℚ)
deriving DecidableEq

/-- The validation step of `merge_enhanced_lrc`: when the input lines have a
parseable last tag and a last formatted word time exists and re-parses as a
time tag, fail when its excess over the last tag exceeds the tolerance and
`force` is not set. -/
def length_check (lrc_lines : List (String × String))
    (word_times : List (String × String)) (force : Bool)
    (length_tolerance : ℚ) : Except MergeError Unit :=
  match last_lrc_time lrc_lines, word_times.getLast? with
  | some lrc_length, some lw =>
    match parse_time_tag ("[" ++ lw.1 ++ "]") with
    | some last_word_seconds =>
      if last_word_seconds - lrc_length > length_tolerance ∧ force = false then
        .error (.lengthMismatch lrc_length last_word_seconds)
      else .ok ()
    | none => .ok ()
  | _, _ => .ok ()

/-- `merge_enhanced_lrc`: normalize the tempo map, convert word positions to
formatted times, validate the length difference, then prepend missing
metadata tags and align every line. -/
def merge_enhanced_lrc (lrc_lines : List (String × String))
    (word_timings : List (ℚ × String)) (tempo_events : List TempoEvent)
    (force : Bool) (length_tolerance : ℚ) (metadata_tags : List String) :
    Except MergeError (List String) :=
  let tempo := normalize_tempo tempo_events
  let word_times := (positions_to_times tempo word_timings).map
    (fun p => (format_timecode p.1, p.2))
  match length_check lrc_lines word_times force length_tolerance with
  | .error e => .error e
  | .ok _ =>
    let existing_tags := lrc_lines.filterMap
      (fun l => if l.1 ≠ "" ∧ l.2 = "" ∧ parse_time_tag l.1 = none then some l.1 else none)
    let header := metadata_tags.filter (fun t => t ∉ existing_tags)
    .ok (header ++ align_lines word_times lrc_lines)

/-! ## Observation functions and spec-side definitions

`build_lrc_token_map` in the script enumerates, in document order, the
non-empty tokens whose normalized form is non-empty; `token_stream` below is
the same token enumeration without the indices, and
`enhanced_token_stream` collects the enhanced tokens that `align_lines`
joins into output lines, in the same order. -/

/-- All non-empty whitespace-delimited tokens of the lines, top-to-bottom,
left-to-right (an empty text contributes nothing: `"".split(" ") = [""]`
and empty tokens are dropped). -/
def token_stream (lrc_lines : List (String × String)) : List String :=
  lrc_lines.flatMap (fun l => (py_split_space l.2).filter (fun t => t ≠ ""))

/-- The concatenation of the per-line enhanced token lists produced by the
aligner, with the word-timing state threaded across lines exactly as in
`align_lines`. -/
def enhanced_token_stream (word_times : List (String × String)) :
    List (String × String) → List String
  | [] => []
  | (_, text) :: rest =>
    if text = "" then enhanced_token_stream word_times rest
    else
      match enhance_tokens word_times (py_split_space text) with
      | (out, ws) => out ++ enhanced_token_stream ws rest

/-- Spec-side alignment policy, following the claim's words: walking the
token stream, a token whose normalized form is empty is emitted unchanged;
otherwise the Nth such (alignable) token receives the Nth word's formatted
time as a `<time>` prefix, and once words are exhausted tokens are emitted
unchanged. -/
def alignment_policy_spec (word_times : List (String × String)) :
    List String → List String
  | [] => []
  | t :: ts =>
    if normalize_token t = "" then t :: alignment_policy_spec word_times ts
    else
      match word_times with
      | [] => t :: alignment_policy_spec [] ts
      | (word_time, _) :: ws => ("<" ++ word_time ++ ">" ++ t) :: alignment_policy_spec ws ts

/-- The word timings left unconsumed by the spec-side policy after a token
list. -/
def spec_leftover (word_times : List (String × String)) :
    List String → List (String × String)
  | [] => word_times
  | t :: ts =>
    if normalize_token t = "" then spec_leftover word_times ts
    else
      match word_times with
      | [] => spec_leftover [] ts
      | _ :: ws => spec_leftover ws ts

/-- Spec-side rendering of the aligner's output for well-formed lines (the
amended C4): each content line becomes its tag, one space, and its tokens —
alignable ones `<time>`-prefixed — joined by single spaces; empty lines pass
through as their tag. -/
def align_render_spec (word_times : List (String × String)) :
    List (String × String) → List String
  | [] => []
  | (time_tag, text) :: rest =>
    if text = "" then time_tag :: align_render_spec word_times rest
    else
      (time_tag ++ " " ++ py_join_space (alignment_policy_spec word_times (py_split_space text)))
        :: align_render_spec (spec_leftover word_times (py_split_space text)) rest

/-- A well-formed parsed line for the amended C4: empty text, or text whose
space-split tokens are all non-empty (no leading/trailing/double spaces) and
whose final character is not whitespace. -/
def wf_line (l : String × String) : Bool :=
  l.2 = "" ||
    ((py_split_space l.2).all (fun t => t ≠ "") &&
      (match l.2.data.getLast? with
       | some c => !c.isWhitespace
       | none => false))

/-- The concatenation of a syllable run's hyphen-stripped texts, as the
Word Timing Builder accumulates them (spec-side observation used to state
C7). -/
def merged_syllables (syls : List LyricEvent) : String :=
  (syls.map (fun e => py_drop_last (py_strip e.2.1))).foldr (fun a b => a ++ b) ""

/-! ## Helper lemmas -/

theorem string_data_append (a b : String) : (a ++ b).data = a.data ++ b.data := by
  cases a
  cases b
  rfl

theorem string_append_assoc (a b c : String) : a ++ b ++ c = a ++ (b ++ c) := by
  apply String.ext
  simp [string_data_append]

/-- Concrete behaviour of the script's `normalize_token`: the mis-closed
character classes make the stripping regexes fail on ordinary tokens, so a
punctuation-only token keeps its text and has a non-empty normalized form
(making it alignable), while whitespace is still stripped and letters are
lower-cased; the first pattern does fire on a token carrying its literal
tail, here the double quote (34) followed by `{}<>` (123, 125, `<`, `>`)
and a `]`. -/
theorem normalize_token_effective :
    normalize_token "!" = "!" ∧ normalize_token "..." = "..." ∧
    normalize_token "  Hi  " = "hi" ∧
    normalize_token (String.mk
      [Char.ofNat 34, Char.ofNat 123, Char.ofNat 125, '<', '>', ']']) = "" := by
  refine ⟨by decide, by decide, by decide, by decide⟩

/-! ### C1 -/

/-- C1 (counterexample): a note whose duration text fails integer parsing is
skipped entirely by `collect_events` — its lyric `"Hi"` is *not* appended to
the lyric-event list, contradicting the claim that lyric sub-elements of a
malformed-duration note are still recorded. -/
theorem c1_counterexample :
    (collect_events
      [[MusicElem.note (some "x") false ["Hi"],
        MusicElem.note (some "4") false ["yo"]]]).toOption
      = some ([((0 : ℚ), "yo", 0)], []) ∧
    "Hi" ∉ ([((0 : ℚ), "yo", 0)] : List LyricEvent).map (fun e => e.2.1) := by
  have hx : parse_duration_text (some "x") = none := by decide
  have h4 : parse_duration_text (some "4") = some 4 := by decide
  have hyo : py_strip "yo" = "yo" := by decide
  constructor
  · norm_num [collect_events, collect_measure, collect_step, collect_init,
      append_lyric_events, hx, h4, hyo]
    decide
  · decide

/-- C1 (amended): for every note element whose duration field is missing or
fails integer parsing, the whole note is skipped: the collector state —
cursor, high-water mark, lyric events and tempo events — is unchanged, so no
lyric sub-element of that note is recorded (lyrics of other notes are
unaffected). -/
theorem c1_malformed_duration_skips_note (s : CollectState) (dur : Option String)
    (chord : Bool) (lyrics : List String) (h : parse_duration_text dur = none) :
    collect_step s (MusicElem.note dur chord lyrics) = s := by
  simp only [collect_step, h]

/-- Witness for `c1_malformed_duration_skips_note` at a concrete state and
note. -/
theorem c1_witness :
    parse_duration_text (some "x") = none ∧
    collect_step collect_init (MusicElem.note (some "x") false ["Hi"]) = collect_init := by
  refine ⟨by decide, ?_⟩
  exact c1_malformed_duration_skips_note collect_init (some "x") false ["Hi"] (by decide)

/-! ### C6 -/

/-- C6: Tempo Map normalization sorts ascending by position; the empty list
normalizes to exactly `[(0, 120)]`; when the earliest sorted entry's position
is `> 0`, a synthetic entry at position 0 with that entry's tempo is
prepended; and `[(5, 90), (10, 60)]` normalizes to
`[(0, 90), (5, 90), (10, 60)]`. -/
theorem c6_normalize_tempo :
    normalize_tempo [] = [((0 : ℚ), (120 : ℚ))]
    ∧ (∀ evs : List TempoEvent,
        (normalize_tempo evs).Pairwise (fun a b => a.1 ≤ b.1))
    ∧ (∀ (evs : List TempoEvent) (p t : ℚ) (rest : List TempoEvent),
        sort_tempo evs = (p, t) :: rest → p > 0 →
        normalize_tempo evs = ((0 : ℚ), t) :: (p, t) :: rest)
    ∧ normalize_tempo [((5 : ℚ), (90 : ℚ)), ((10 : ℚ), (60 : ℚ))]
        = [((0 : ℚ), 90), ((5 : ℚ), 90), ((10 : ℚ), 60)] := by
  have hsorted : ∀ evs : List TempoEvent,
      (sort_tempo evs).Pairwise (fun a b => a.1 ≤ b.1) := by
    intro evs
    letI : IsTotal TempoEvent (fun a b => a.1 ≤ b.1) := ⟨fun a b => le_total a.1 b.1⟩
    letI : IsTrans TempoEvent (fun a b => a.1 ≤ b.1) := ⟨fun a b c h1 h2 => le_trans h1 h2⟩
    exact List.sorted_insertionSort _ evs
  refine ⟨?_, ?_, ?_, ?_⟩
  · simp [normalize_tempo, sort_tempo, List.insertionSort]
  · intro evs
    unfold normalize_tempo
    rcases h : sort_tempo evs with _ | ⟨⟨p, t⟩, rest⟩
    · simp
    · have hs := hsorted evs
      rw [h] at hs
      by_cases hp : p > 0
      · simp only [if_pos hp]
        refine List.Pairwise.cons ?_ hs
        intro e he
        rcases List.mem_cons.mp he with rfl | he'
        · exact le_of_lt hp
        · have := (List.pairwise_cons.mp hs).1 e he'
          exact le_trans (le_of_lt hp) this
      · simpa [if_neg hp] using hs
  · intro evs p t rest hsort hp
    simp [normalize_tempo, hsort, hp]
  · have : sort_tempo [((5 : ℚ), (90 : ℚ)), ((10 : ℚ), (60 : ℚ))]
        = [((5 : ℚ), (90 : ℚ)), ((10 : ℚ), (60 : ℚ))] := by
      norm_num [sort_tempo, List.insertionSort, List.orderedInsert]
    norm_num [normalize_tempo, this]

/-- Witness for `c6_normalize_tempo`'s conditional conjunct at a concrete
tempo list. -/
theorem c6_witness :
    normalize_tempo [((5 : ℚ), (90 : ℚ))] = [((0 : ℚ), 90), ((5 : ℚ), 90)] := by
  have h : sort_tempo [((5 : ℚ), (90 : ℚ))] = [((5 : ℚ), (90 : ℚ))] := by
    norm_num [sort_tempo, List.insertionSort, List.orderedInsert]
  exact c6_normalize_tempo.2.2.1 [((5 : ℚ), (90 : ℚ))] 5 90 [] h (by norm_num)

/-! ### C8 -/

theorem dedupe_fold_loop (l : List LyricEvent) (acc : List LyricEvent)
    (k : Option (ℚ × String)) :
    (l.foldl dedupe_body (acc, k)).1 = acc ++ dedupe_go k l := by
  induction l generalizing acc k with
  | nil => simp [dedupe_go]
  | cons ev rest ih =>
    cases k with
    | none => simp [dedupe_go, dedupe_body, ih]
    | some key =>
      by_cases h : key = (ev.1, ev.2.1)
      · simp [dedupe_go, dedupe_body, h, ih]
      · simp [dedupe_go, dedupe_body, h, ih]

theorem dedupe_go_destutter (l : List LyricEvent) (a : LyricEvent) :
    List.destutter' (fun x y => ¬((x.1, x.2.1) = (y.1, y.2.1))) a l
      = a :: dedupe_go (some (a.1, a.2.1)) l := by
  induction l generalizing a with
  | nil => simp [dedupe_go, List.destutter']
  | cons b rest ih =>
    by_cases h : (a.1, a.2.1) = (b.1, b.2.1)
    · rw [List.destutter'_cons, if_neg (by simp [h])]
      rw [ih a]
      simp [dedupe_go, h]
    · rw [List.destutter'_cons, if_pos (by exact h)]
      rw [ih b]
      simp [dedupe_go, h]

/-- C8: with dedupe enabled, the collapse step is exactly `List.destutter`
on the `(position, text)` key — only *adjacent* repeats collapse, so
non-adjacent repeats of the same text at other positions survive; in
particular the sorted events `[(0,"a"), (0,"a"), (4,"a")]` dedupe to
`[(0,"a"), (4,"a")]`. -/
theorem c8_dedupe_adjacent :
    (∀ evs : List LyricEvent,
      dedupe_fold evs = evs.destutter (fun a b => ¬((a.1, a.2.1) = (b.1, b.2.1))))
    ∧ dedupe_fold (sort_lyric [((0 : ℚ), "a", 0), ((0 : ℚ), "a", 1), ((4 : ℚ), "a", 2)])
        = [((0 : ℚ), "a", 0), ((4 : ℚ), "a", 2)] := by
  have hgen : ∀ evs : List LyricEvent,
      dedupe_fold evs = evs.destutter (fun a b => ¬((a.1, a.2.1) = (b.1, b.2.1))) := by
    intro evs
    unfold dedupe_fold
    rw [dedupe_fold_loop evs [] none]
    cases evs with
    | nil => simp [dedupe_go, List.destutter]
    | cons a rest =>
      rw [List.destutter_cons', dedupe_go_destutter]
      simp [dedupe_go]
  refine ⟨hgen, ?_⟩
  have hs : sort_lyric [((0 : ℚ), "a", 0), ((0 : ℚ), "a", 1), ((4 : ℚ), "a", 2)]
      = [((0 : ℚ), "a", 0), ((0 : ℚ), "a", 1), ((4 : ℚ), "a", 2)] := by
    norm_num [sort_lyric, List.insertionSort, List.orderedInsert]
  rw [hs, hgen]
  norm_num [List.destutter, List.destutter']

/-! ### C7 -/

theorem string_empty_append (s : String) : "" ++ s = s := by
  apply String.ext
  simp [string_data_append]

theorem string_append_empty (s : String) : s ++ "" = s := by
  apply String.ext
  simp [string_data_append]

theorem merged_syllables_nil : merged_syllables [] = "" := rfl

theorem merged_syllables_cons (s : LyricEvent) (syls : List LyricEvent) :
    merged_syllables (s :: syls) = py_drop_last (py_strip s.2.1) ++ merged_syllables syls := rfl

theorem build_word_go_run (syls : List LyricEvent) (last_ev : LyricEvent)
    (rest : List LyricEvent) (buffer : String) (t : ℚ)
    (h1 : ∀ e ∈ syls, ends_with_hyphen (py_strip e.2.1) = true)
    (h2 : ends_with_hyphen (py_strip last_ev.2.1) = false) :
    build_word_go buffer (some t) (syls ++ last_ev :: rest)
      = (t, buffer ++ (merged_syllables syls ++ py_strip last_ev.2.1))
          :: build_word_go "" none rest := by
  induction syls generalizing buffer with
  | nil =>
    obtain ⟨p, tx, i⟩ := last_ev
    simp only [List.nil_append, build_word_go, Option.getD_some]
    rw [if_neg (by simpa using h2)]
    simp [merged_syllables_nil, string_empty_append]
  | cons s syls ih =>
    obtain ⟨p, tx, i⟩ := s
    have hs := h1 (p, tx, i) (List.mem_cons_self _ _)
    simp only [List.cons_append, build_word_go, Option.getD_some]
    rw [if_pos (by simpa using hs)]
    rw [List.append_eq, ih _ (fun e he => h1 e (List.mem_cons_of_mem _ he))]
    rw [merged_syllables_cons]
    simp [string_append_assoc]

theorem build_word_go_flush (syls : List LyricEvent) (buffer : String) (t : ℚ)
    (h1 : ∀ e ∈ syls, ends_with_hyphen (py_strip e.2.1) = true) :
    build_word_go buffer (some t) syls
      = (if buffer ++ merged_syllables syls ≠ ""
         then [(t, buffer ++ merged_syllables syls)] else []) := by
  induction syls generalizing buffer with
  | nil => simp [build_word_go, merged_syllables_nil, string_append_empty]
  | cons s syls ih =>
    obtain ⟨p, tx, i⟩ := s
    have hs := h1 (p, tx, i) (List.mem_cons_self _ _)
    simp only [build_word_go, Option.getD_some]
    rw [if_pos (by simpa using hs)]
    rw [ih _ (fun e he => h1 e (List.mem_cons_of_mem _ he))]
    rw [merged_syllables_cons]
    simp [string_append_assoc]

/-- C7: the Word Timing Builder merges a run of hyphen-continued syllables
followed by a non-continued syllable into a single Word starting at the
*first* syllable's position with the continuation hyphens stripped; a
non-empty buffer left after the final event flushes as a last Word; in
particular `("Hel-", 0)` and `("lo", 2)` merge into `(0, "Hello")`. -/
theorem c7_word_merge :
    (∀ (syls : List LyricEvent) (last_ev : LyricEvent) (rest : List LyricEvent),
      (∀ e ∈ syls, ends_with_hyphen (py_strip e.2.1) = true) →
      ends_with_hyphen (py_strip last_ev.2.1) = false →
      build_word_timings (syls ++ last_ev :: rest)
        = ((syls.headD last_ev).1, merged_syllables syls ++ py_strip last_ev.2.1)
            :: build_word_timings rest)
    ∧ (∀ (syls : List LyricEvent),
        (∀ e ∈ syls, ends_with_hyphen (py_strip e.2.1) = true) →
        merged_syllables syls ≠ "" →
        build_word_timings syls
          = [((syls.headD ((0 : ℚ), "", 0)).1, merged_syllables syls)])
    ∧ build_word_timings [((0 : ℚ), "Hel-", 0), ((2 : ℚ), "lo", 1)] = [((0 : ℚ), "Hello")] := by
  refine ⟨?_, ?_, by decide⟩
  · intro syls last_ev rest h1 h2
    cases syls with
    | nil =>
      obtain ⟨p, tx, i⟩ := last_ev
      unfold build_word_timings
      simp only [List.nil_append, build_word_go, Option.getD_none]
      rw [if_neg (by simpa using h2)]
      simp [merged_syllables_nil, string_empty_append]
    | cons s syls =>
      obtain ⟨p, tx, i⟩ := s
      have hs := h1 (p, tx, i) (List.mem_cons_self _ _)
      unfold build_word_timings
      simp only [List.cons_append, build_word_go, Option.getD_none]
      rw [if_pos (by simpa using hs)]
      rw [List.append_eq, build_word_go_run syls last_ev rest _ _
        (fun e he => h1 e (List.mem_cons_of_mem _ he)) h2]
      rw [merged_syllables_cons]
      simp [string_empty_append, string_append_assoc]
  · intro syls h1 hne
    cases syls with
    | nil => simp [merged_syllables_nil] at hne
    | cons s syls =>
      obtain ⟨p, tx, i⟩ := s
      have hs := h1 (p, tx, i) (List.mem_cons_self _ _)
      unfold build_word_timings
      simp only [build_word_go, Option.getD_none]
      rw [if_pos (by simpa using hs)]
      rw [build_word_go_flush syls _ _ (fun e he => h1 e (List.mem_cons_of_mem _ he))]
      rw [merged_syllables_cons] at hne ⊢
      rw [if_pos (by simpa [string_empty_append] using hne)]
      simp [string_empty_append]

/-- Witness for `c7_word_merge` at the claim's concrete syllables. -/
theorem c7_witness :
    (∀ e ∈ [((0 : ℚ), "Hel-", 0)], ends_with_hyphen (py_strip e.2.1) = true) ∧
    build_word_timings [((0 : ℚ), "Hel-", 0), ((2 : ℚ), "lo", 1)]
      = [((0 : ℚ), merged_syllables [((0 : ℚ), "Hel-", 0)] ++ py_strip "lo")] := by
  refine ⟨by decide, ?_⟩
  have h := c7_word_merge.1 [((0 : ℚ), "Hel-", 0)] ((2 : ℚ), "lo", 1) []
    (by decide) (by decide)
  simpa using h

/-! ### C10 -/

theorem els_advance_eq_ptt (rest : List TempoEvent) (p cpos ctime ctempo : ℚ) :
    els_advance p cpos ctime ctempo rest = ptt_advance p cpos ctime ctempo rest := by
  induction rest generalizing cpos ctime ctempo with
  | nil => rfl
  | cons e rest ih =>
    obtain ⟨np, nt⟩ := e
    simp only [els_advance, ptt_advance]
    by_cases h : np ≤ p
    · rw [if_pos h, if_pos h, ih]
    · rw [if_neg h, if_neg h]

theorem els_step_eq_ptt (p cpos ctime ctempo : ℚ) (rest : List TempoEvent) :
    els_step p cpos ctime ctempo rest = ptt_step p cpos ctime ctempo rest := by
  unfold els_step ptt_step
  rw [els_advance_eq_ptt]

theorem els_go_eq_ptt (evs : List LyricEvent) (cpos ctime ctempo : ℚ)
    (rest : List TempoEvent) :
    els_go cpos ctime ctempo rest evs
      = ptt_go cpos ctime ctempo rest (evs.map (fun e => (e.1, e.2.1))) := by
  induction evs generalizing cpos ctime ctempo rest with
  | nil => rfl
  | cons e evs ih =>
    obtain ⟨p, text, i⟩ := e
    simp only [els_go, ptt_go, List.map_cons, els_step_eq_ptt]
    rcases h : ptt_step p cpos ctime ctempo rest with ⟨c1, t1, tp1, r1⟩
    simp [ih]

/-- C10: the inline tempo-map scan of `extract_lyrics` and
`positions_to_times` of `merge_enhanced_lrc` compute identical
elapsed-seconds sequences for every normalized tempo map and every
non-decreasing position sequence (indeed for all inputs; the proof does not
need the hypotheses). -/
theorem c10_scan_equivalence (tempo : List TempoEvent) (evs : List LyricEvent)
    (_hnorm : ∃ raw, tempo = normalize_tempo raw)
    (_hmono : evs.Pairwise (fun a b => a.1 ≤ b.1)) :
    (extract_scan tempo evs).map Prod.fst
      = (positions_to_times tempo (evs.map (fun e => (e.1, e.2.1)))).map Prod.fst := by
  unfold extract_scan positions_to_times
  rw [els_go_eq_ptt]

/-- Witness for `c10_scan_equivalence` on the default tempo map and a
single event. -/
theorem c10_witness :
    (extract_scan (normalize_tempo []) [((0 : ℚ), "a", 0)]).map Prod.fst
      = (positions_to_times (normalize_tempo []) [((0 : ℚ), "a")]).map Prod.fst := by
  have h := c10_scan_equivalence (normalize_tempo []) [((0 : ℚ), "a", 0)]
    ⟨[], rfl⟩ (by decide)
  simpa using h

/-! ### C3 -/

theorem ptt_advance_inv (rest : List TempoEvent) (p cpos ctime ctempo : ℚ)
    (htempo : 0 < ctempo) (hpos : ∀ e ∈ rest, 0 < e.2)
    (hsort : rest.Pairwise (fun a b => a.1 ≤ b.1)) :
    0 < (ptt_advance p cpos ctime ctempo rest).2.2.1
    ∧ (∀ e ∈ (ptt_advance p cpos ctime ctempo rest).2.2.2, 0 < e.2)
    ∧ (ptt_advance p cpos ctime ctempo rest).2.2.2.Pairwise (fun a b => a.1 ≤ b.1)
    ∧ (∀ e ∈ (ptt_advance p cpos ctime ctempo rest).2.2.2, p < e.1)
    ∧ ((∀ e ∈ rest, cpos ≤ e.1) → cpos ≤ p →
        ((ptt_advance p cpos ctime ctempo rest).1 ≤ p
         ∧ ctime ≤ (ptt_advance p cpos ctime ctempo rest).2.1
         ∧ (∀ e ∈ (ptt_advance p cpos ctime ctempo rest).2.2.2,
             (ptt_advance p cpos ctime ctempo rest).1 ≤ e.1))) := by
  induction rest generalizing cpos ctime ctempo with
  | nil =>
    simp only [ptt_advance]
    exact ⟨htempo, by simp, by simp, by simp, fun _ hcp => ⟨hcp, le_refl _, by simp⟩⟩
  | cons e rest ih =>
    obtain ⟨np, nt⟩ := e
    have hnt : 0 < nt := hpos (np, nt) (List.mem_cons_self _ _)
    have hrestpos : ∀ x ∈ rest, 0 < x.2 := fun x hx => hpos x (List.mem_cons_of_mem _ hx)
    have hhead : ∀ x ∈ rest, np ≤ x.1 := fun x hx => (List.pairwise_cons.mp hsort).1 x hx
    have hresort : rest.Pairwise (fun a b => a.1 ≤ b.1) := (List.pairwise_cons.mp hsort).2
    by_cases h : np ≤ p
    · simp only [ptt_advance, if_pos h]
      have := ih np (ctime + (np - cpos) * 60 / ctempo) nt hnt hrestpos hresort
      refine ⟨this.1, this.2.1, this.2.2.1, this.2.2.2.1, ?_⟩
      intro hge hcp
      have hnpc : cpos ≤ np := hge (np, nt) (List.mem_cons_self _ _)
      have hstep : ctime ≤ ctime + (np - cpos) * 60 / ctempo := by
        have hd : (0 : ℚ) ≤ (np - cpos) * 60 / ctempo := by
          apply div_nonneg
          · have : (0 : ℚ) ≤ np - cpos := by linarith
            positivity
          · exact le_of_lt htempo
        linarith
      have hrec := this.2.2.2.2 hhead h
      exact ⟨hrec.1, le_trans hstep hrec.2.1, hrec.2.2⟩
    · simp only [ptt_advance, if_neg h]
      push_neg at h
      refine ⟨htempo, hpos, hsort, ?_, ?_⟩
      · intro x hx
        rcases List.mem_cons.mp hx with rfl | hx'
        · exact h
        · exact lt_of_lt_of_le h (hhead x hx')
      · intro hge hcp
        exact ⟨hcp, le_refl _, hge⟩

theorem ptt_step_inv (p cpos ctime ctempo : ℚ) (rest : List TempoEvent)
    (htempo : 0 < ctempo) (hpos : ∀ e ∈ rest, 0 < e.2)
    (hsort : rest.Pairwise (fun a b => a.1 ≤ b.1)) :
    (ptt_step p cpos ctime ctempo rest).1 = p
    ∧ 0 < (ptt_step p cpos ctime ctempo rest).2.2.1
    ∧ (∀ e ∈ (ptt_step p cpos ctime ctempo rest).2.2.2, 0 < e.2)
    ∧ (ptt_step p cpos ctime ctempo rest).2.2.2.Pairwise (fun a b => a.1 ≤ b.1)
    ∧ (∀ e ∈ (ptt_step p cpos ctime ctempo rest).2.2.2, p ≤ e.1)
    ∧ ((∀ e ∈ rest, cpos ≤ e.1) → cpos ≤ p →
        ctime ≤ (ptt_step p cpos ctime ctempo rest).2.1) := by
  have hadv := ptt_advance_inv rest p cpos ctime ctempo htempo hpos hsort
  unfold ptt_step
  rcases hA : ptt_advance p cpos ctime ctempo rest with ⟨c1, t1, tp1, r1⟩
  rw [hA] at hadv
  simp only at hadv
  dsimp only
  by_cases hd : p - c1 ≠ 0
  · rw [if_pos hd]
    refine ⟨rfl, hadv.1, hadv.2.1, hadv.2.2.1, fun e he => le_of_lt (hadv.2.2.2.1 e he), ?_⟩
    intro hge hcp
    have h5 := hadv.2.2.2.2 hge hcp
    have hc1p : c1 ≤ p := h5.1
    have hnn : (0 : ℚ) ≤ (p - c1) * 60 / tp1 := by
      apply div_nonneg
      · have : (0 : ℚ) ≤ p - c1 := by linarith
        positivity
      · exact le_of_lt hadv.1
    have := h5.2.1
    simp only
    linarith
  · rw [if_neg hd]
    push_neg at hd
    have hc1 : c1 = p := by linarith [sub_eq_zero.mp hd]
    subst hc1
    refine ⟨rfl, hadv.1, hadv.2.1, hadv.2.2.1, fun e he => le_of_lt (hadv.2.2.2.1 e he), ?_⟩
    intro hge hcp
    exact (hadv.2.2.2.2 hge hcp).2.1

theorem ptt_go_mono (ps : List (ℚ × String)) (p0 ctime ctempo : ℚ)
    (rest : List TempoEvent)
    (htempo : 0 < ctempo) (hpos : ∀ e ∈ rest, 0 < e.2)
    (hsort : rest.Pairwise (fun a b => a.1 ≤ b.1))
    (hge : ∀ e ∈ rest, p0 ≤ e.1)
    (hmono : ps.Pairwise (fun a b => a.1 ≤ b.1))
    (hp0 : ∀ q ∈ ps, p0 ≤ q.1) :
    List.Chain' (fun a b => a ≤ b)
      (ctime :: (ptt_go p0 ctime ctempo rest ps).map Prod.fst) := by
  induction ps generalizing p0 ctime ctempo rest with
  | nil => simp [ptt_go]
  | cons q ps ih =>
    obtain ⟨p, text⟩ := q
    have hstep := ptt_step_inv p p0 ctime ctempo rest htempo hpos hsort
    simp only [ptt_go]
    rcases hS : ptt_step p p0 ctime ctempo rest with ⟨c1, t1, tp1, r1⟩
    rw [hS] at hstep
    dsimp only at hstep ⊢
    rw [hstep.1]
    have hple : p0 ≤ p := hp0 (p, text) (List.mem_cons_self _ _)
    have htle : ctime ≤ t1 := hstep.2.2.2.2.2 hge hple
    have hnext : ∀ x ∈ ps, p ≤ x.1 := fun x hx => (List.pairwise_cons.mp hmono).1 x hx
    have := ih p t1 tp1 r1 hstep.2.1 hstep.2.2.1 hstep.2.2.2.1 hstep.2.2.2.2.1
      (List.pairwise_cons.mp hmono).2 hnext
    simp only [List.map_cons]
    exact List.Chain'.cons htle this

/-- C3 (amended): for every *sorted* tempo map whose tempo values are all
positive and every non-decreasing sequence of rational positions, the
elapsed-seconds sequence emitted by the Converter is non-decreasing.  (The
positivity hypothesis is forced by `c3_counterexample`: the script accepts a
parsed negative tempo, under which the scan emits decreasing times.) -/
theorem c3_times_monotone (tempo : List TempoEvent) (ps : List (ℚ × String))
    (hsort : tempo.Pairwise (fun a b => a.1 ≤ b.1))
    (hpos : ∀ e ∈ tempo, 0 < e.2)
    (hmono : ps.Pairwise (fun a b => a.1 ≤ b.1)) :
    List.Chain' (fun a b => a ≤ b) ((positions_to_times tempo ps).map Prod.fst) := by
  unfold positions_to_times
  have htempo : 0 < (tempo.headD ((0 : ℚ), (120 : ℚ))).2 := by
    cases tempo with
    | nil => norm_num
    | cons e rest => exact hpos e (List.mem_cons_self _ _)
  have htailpos : ∀ e ∈ tempo.tail, 0 < e.2 := by
    cases tempo with
    | nil => simp
    | cons e rest => exact fun x hx => hpos x (List.mem_cons_of_mem _ hx)
  have htailsort : tempo.tail.Pairwise (fun a b => a.1 ≤ b.1) := by
    cases tempo with
    | nil => simp
    | cons e rest => exact (List.pairwise_cons.mp hsort).2
  cases ps with
  | nil => simp [ptt_go]
  | cons q ps =>
    obtain ⟨p, text⟩ := q
    have hstep := ptt_step_inv p 0 0 (tempo.headD ((0 : ℚ), (120 : ℚ))).2 tempo.tail
      htempo htailpos htailsort
    simp only [ptt_go]
    rcases hS : ptt_step p 0 0 (tempo.headD ((0 : ℚ), (120 : ℚ))).2 tempo.tail
      with ⟨c1, t1, tp1, r1⟩
    rw [hS] at hstep
    dsimp only at hstep ⊢
    rw [hstep.1]
    simp only [List.map_cons]
    exact ptt_go_mono ps p t1 tp1 r1 hstep.2.1 hstep.2.2.1 hstep.2.2.2.1
      hstep.2.2.2.2.1 (List.pairwise_cons.mp hmono).2
      (fun x hx => (List.pairwise_cons.mp hmono).1 x hx)

/-- Witness for `c3_times_monotone` on the default tempo map. -/
theorem c3_witness :
    List.Pairwise (fun a b : TempoEvent => a.1 ≤ b.1) [((0 : ℚ), (120 : ℚ))]
    ∧ List.Chain' (fun a b => a ≤ b)
        ((positions_to_times [((0 : ℚ), (120 : ℚ))]
          [((0 : ℚ), "a"), ((1 : ℚ), "b")]).map Prod.fst) := by
  refine ⟨by decide, ?_⟩
  exact c3_times_monotone [((0 : ℚ), (120 : ℚ))] [((0 : ℚ), "a"), ((1 : ℚ), "b")]
    (by decide) (by norm_num) (by norm_num)

/-- C3 (counterexample): the tempo map `[(0, -120)]` — sorted, first entry
at position 0, expressible in the script via a parsed tempo attribute of
`-120` — together with the non-decreasing positions `[0, 1]` makes the
Converter emit `[0, -1/2]`, which is *not* non-decreasing; so the claim is
false for arbitrary tempo maps. -/
theorem c3_counterexample :
    List.Pairwise (fun a b : TempoEvent => a.1 ≤ b.1) [((0 : ℚ), (-120 : ℚ))]
    ∧ List.Pairwise (fun a b : ℚ × String => a.1 ≤ b.1) [((0 : ℚ), "a"), ((1 : ℚ), "b")]
    ∧ (positions_to_times [((0 : ℚ), (-120 : ℚ))] [((0 : ℚ), "a"), ((1 : ℚ), "b")]).map
        Prod.fst = [0, -1 / 2]
    ∧ ¬ List.Chain' (fun a b => a ≤ b)
        ((positions_to_times [((0 : ℚ), (-120 : ℚ))] [((0 : ℚ), "a"), ((1 : ℚ), "b")]).map
          Prod.fst) := by
  have hv : (positions_to_times [((0 : ℚ), (-120 : ℚ))] [((0 : ℚ), "a"), ((1 : ℚ), "b")]).map
      Prod.fst = [0, -1 / 2] := by
    norm_num [positions_to_times, ptt_go, ptt_step, ptt_advance]
  refine ⟨by decide, by norm_num, hv, ?_⟩
  rw [hv]
  simp only [List.chain'_cons, List.chain'_singleton, and_true]
  norm_num

/-! ### C9 -/

/-- C9: end-to-end on a part with divisions 4 and a single 120 BPM tempo, a
duration-4 note with lyric "Hi" at position 0 and a second duration-4 note
with lyric "There" at position 1 yield exactly the lines
`"[00:00.00] Hi"` and `"[00:00.50] There"`. -/
theorem c9_end_to_end :
    (extract_lyrics_pipeline
      [[MusicElem.attributes (some 4), MusicElem.direction (some 120) none,
        MusicElem.note (some "4") false ["Hi"],
        MusicElem.note (some "4") false ["There"]]]
      true).toOption.map (fun r => r.1)
      = some ["[00:00.00] Hi", "[00:00.50] There"] := by
  have h4 : parse_duration_text (some "4") = some 4 := by decide
  have hHi : py_strip "Hi" = "Hi" := by decide
  have hTh : py_strip "There" = "There" := by decide
  have eHi : ("Hi" : String) ≠ "" := by decide
  have eTh : ("There" : String) ≠ "" := by decide
  have h1 : collect_events
      [[MusicElem.attributes (some 4), MusicElem.direction (some 120) none,
        MusicElem.note (some "4") false ["Hi"],
        MusicElem.note (some "4") false ["There"]]]
      = Except.ok ([((0 : ℚ), "Hi", 0), ((1 : ℚ), "There", 1)],
          [((0 : ℚ), (120 : ℚ))]) := by
    norm_num [collect_events, collect_measure, collect_step, collect_init,
      append_lyric_events, h4, hHi, hTh, eHi, eTh]
    intro hh
    exact absurd hh (by simp)
  have h2 : normalize_tempo [((0 : ℚ), (120 : ℚ))] = [((0 : ℚ), (120 : ℚ))] := by
    norm_num [normalize_tempo, sort_tempo, List.insertionSort, List.orderedInsert]
  have h3 : sort_lyric [((0 : ℚ), "Hi", 0), ((1 : ℚ), "There", 1)]
      = [((0 : ℚ), "Hi", 0), ((1 : ℚ), "There", 1)] := by
    norm_num [sort_lyric, List.insertionSort, List.orderedInsert]
  have h5 : dedupe_fold [((0 : ℚ), "Hi", 0), ((1 : ℚ), "There", 1)]
      = [((0 : ℚ), "Hi", 0), ((1 : ℚ), "There", 1)] := by
    have : ¬(((0 : ℚ), "Hi") = ((1 : ℚ), "There"))  := by norm_num
    norm_num [dedupe_fold, dedupe_body, this]
  have h6 : extract_scan [((0 : ℚ), (120 : ℚ))]
      [((0 : ℚ), "Hi", 0), ((1 : ℚ), "There", 1)]
      = [((0 : ℚ), "Hi"), ((1 / 2 : ℚ), "There")] := by
    norm_num [extract_scan, els_go, els_step, els_advance]
  have h7 : format_line 0 "Hi" = "[00:00.00] Hi" := by
    norm_num [format_line, py_round, pad2]
    decide
  have h8 : format_line (1 / 2) "There" = "[00:00.50] There" := by
    norm_num [format_line, py_round, pad2]
    decide
  unfold extract_lyrics_pipeline
  rw [h1]
  simp [h2, h3, h5, h6, h7, h8, Except.toOption]
  simpa using h8

/-! ### C5 -/

theorem length_check_error_iff (lrc_lines : List (String × String))
    (word_times : List (String × String)) (force : Bool)
    (length_tolerance : ℚ) (L W : ℚ) :
    length_check lrc_lines word_times force length_tolerance
        = Except.error (MergeError.lengthMismatch L W)
      ↔ (last_lrc_time lrc_lines = some L
          ∧ (∃ lw, word_times.getLast? = some lw
              ∧ parse_time_tag ("[" ++ lw.1 ++ "]") = some W)
          ∧ W - L > length_tolerance ∧ force = false) := by
  unfold length_check
  rcases hL : last_lrc_time lrc_lines with _ | L'
  · simp
  rcases hW : word_times.getLast? with _ | lw
  · simp
  dsimp only
  rcases hP : parse_time_tag ("[" ++ lw.1 ++ "]") with _ | W'
  · simp [hP]
  dsimp only
  by_cases hc : W' - L' > length_tolerance ∧ force = false
  · rw [if_pos hc]
    constructor
    · intro h
      simp only [Except.error.injEq, MergeError.lengthMismatch.injEq] at h
      refine ⟨by rw [h.1], ⟨lw, rfl, by rw [hP, h.2]⟩, ?_, hc.2⟩
      rw [← h.1, ← h.2]
      exact hc.1
    · rintro ⟨hLL, ⟨lw2, hlw2, hP2⟩, _, _⟩
      obtain rfl : lw = lw2 := by simpa using hlw2
      obtain rfl : L' = L := by simpa using hLL
      rw [hP] at hP2
      obtain rfl : W' = W := by simpa using hP2
      rfl
  · rw [if_neg hc]
    constructor
    · intro h
      cases h
    · rintro ⟨hLL, ⟨lw2, hlw2, hP2⟩, hgt, hforce⟩
      obtain rfl : lw = lw2 := by simpa using hlw2
      obtain rfl : L' = L := by simpa using hLL
      rw [hP] at hP2
      obtain rfl : W' = W := by simpa using hP2
      exact absurd ⟨hgt, hforce⟩ hc


theorem merge_error_iff_check (lrc_lines : List (String × String))
    (word_timings : List (ℚ × String)) (tempo_events : List TempoEvent)
    (force : Bool) (length_tolerance : ℚ) (metadata_tags : List String)
    (e : MergeError) :
    (merge_enhanced_lrc lrc_lines word_timings tempo_events force
        length_tolerance metadata_tags = Except.error e)
      ↔ length_check lrc_lines
          ((positions_to_times (normalize_tempo tempo_events) word_timings).map
            (fun p => (format_timecode p.1, p.2))) force length_tolerance
          = Except.error e := by
  unfold merge_enhanced_lrc
  dsimp only
  rcases hc : length_check lrc_lines
      ((positions_to_times (normalize_tempo tempo_events) word_timings).map
        (fun p => (format_timecode p.1, p.2))) force length_tolerance with e' | u
  · simp [hc]
  · simp [hc]

theorem merge_ok_of_check_ok (lrc_lines : List (String × String))
    (word_timings : List (ℚ × String)) (tempo_events : List TempoEvent)
    (force : Bool) (length_tolerance : ℚ) (metadata_tags : List String)
    (h : length_check lrc_lines
        ((positions_to_times (normalize_tempo tempo_events) word_timings).map
          (fun p => (format_timecode p.1, p.2))) force length_tolerance
        = Except.ok ()) :
    ∃ out, merge_enhanced_lrc lrc_lines word_timings tempo_events force
      length_tolerance metadata_tags = Except.ok out := by
  unfold merge_enhanced_lrc
  dsimp only
  rw [h]
  exact ⟨_, rfl⟩

theorem length_check_ok_of_force (lrc_lines : List (String × String))
    (word_times : List (String × String)) (length_tolerance : ℚ) :
    length_check lrc_lines word_times true length_tolerance = Except.ok () := by
  unfold length_check
  rcases last_lrc_time lrc_lines with _ | L'
  · rfl
  rcases word_times.getLast? with _ | lw
  · rfl
  dsimp only
  rcases parse_time_tag ("[" ++ lw.1 ++ "]") with _ | W'
  · rfl
  dsimp only
  rw [if_neg (by simp)]

/-- C5 (amended): merge fails with the length-mismatch error carrying the
last LRC tag time `L` and the re-parsed last formatted word time `W` exactly
when the input lines have a parseable last tag `L`, a last word exists whose
centisecond-rounded formatted time re-parses as `W` (which requires its
minutes to fit two digits), `W - L` exceeds the tolerance and `force` is
unset; with `force` set it always succeeds and emits output. -/
theorem c5_length_check (lrc_lines : List (String × String))
    (word_timings : List (ℚ × String)) (tempo_events : List TempoEvent)
    (force : Bool) (length_tolerance : ℚ) (metadata_tags : List String)
    (L W : ℚ) :
    ((merge_enhanced_lrc lrc_lines word_timings tempo_events force
        length_tolerance metadata_tags
        = Except.error (MergeError.lengthMismatch L W))
      ↔ (last_lrc_time lrc_lines = some L
          ∧ (∃ lw, ((positions_to_times (normalize_tempo tempo_events)
                word_timings).map (fun p => (format_timecode p.1, p.2))).getLast?
                = some lw
              ∧ parse_time_tag ("[" ++ lw.1 ++ "]") = some W)
          ∧ W - L > length_tolerance ∧ force = false))
    ∧ (force = true →
        ∃ out, merge_enhanced_lrc lrc_lines word_timings tempo_events force
          length_tolerance metadata_tags = Except.ok out) := by
  constructor
  · rw [merge_error_iff_check]
    exact length_check_error_iff lrc_lines _ force length_tolerance L W
  · intro hf
    subst hf
    exact merge_ok_of_check_ok lrc_lines word_timings tempo_events true
      length_tolerance metadata_tags (length_check_ok_of_force _ _ _)

theorem c5_helper_parse_sixty : parse_time_tag "[01:00.00]" = some 60 := by
  norm_num [parse_time_tag, digit_val]
  refine ⟨by decide, ?_⟩
  norm_num [show ('0'.toNat - 48 : ℕ) = 0 from by decide,
    show ('1'.toNat - 48 : ℕ) = 1 from by decide]

theorem c5_helper_last : last_lrc_time (read_lrc_lines ["[01:00.00] la"]) = some 60 := by
  have hr : read_lrc_lines ["[01:00.00] la"] = [("[01:00.00]", "la")] := by decide
  rw [hr]
  norm_num [last_lrc_time, c5_helper_parse_sixty,
    show ("[01:00.00]" : String) ≠ "" from by decide]

theorem c5_helper_wt :
    (positions_to_times (normalize_tempo []) [((132 : ℚ), "word")]).map
      (fun p => (format_timecode p.1, p.2)) = [("01:06.00", "word")] := by
  have h1 : positions_to_times (normalize_tempo []) [((132 : ℚ), "word")]
      = [((66 : ℚ), "word")] := by
    norm_num [positions_to_times, normalize_tempo, sort_tempo, List.insertionSort,
      ptt_go, ptt_step, ptt_advance]
  have h2 : format_timecode 66 = "01:06.00" := by
    norm_num [format_timecode, py_round, pad2]
    decide
  rw [h1]
  simp [h2]

theorem c5_helper_parse : parse_time_tag ("[" ++ "01:06.00" ++ "]") = some 66 := by
  have h : ("[" ++ "01:06.00" ++ "]" : String) = "[01:06.00]" := by decide
  rw [h]
  norm_num [parse_time_tag, digit_val]
  refine ⟨by decide, ?_⟩
  norm_num [show ('0'.toNat - 48 : ℕ) = 0 from by decide,
    show ('1'.toNat - 48 : ℕ) = 1 from by decide,
    show ('6'.toNat - 48 : ℕ) = 6 from by decide]

/-- Witness for `c5_length_check` at the claim's concrete scenario: last tag
`01:00.00`, last word time 66 s (position 132 at the default 120 BPM),
tolerance 5 — fails without force reporting (60, 66), succeeds with force. -/
theorem c5_witness :
    (merge_enhanced_lrc (read_lrc_lines ["[01:00.00] la"]) [((132 : ℚ), "word")]
        [] false 5 [] = Except.error (MergeError.lengthMismatch 60 66))
    ∧ (∃ out, merge_enhanced_lrc (read_lrc_lines ["[01:00.00] la"])
        [((132 : ℚ), "word")] [] true 5 [] = Except.ok out) := by
  constructor
  · exact (c5_length_check (read_lrc_lines ["[01:00.00] la"]) [((132 : ℚ), "word")]
      [] false 5 [] 60 66).1.mpr
      ⟨c5_helper_last, ⟨("01:06.00", "word"), by simp [c5_helper_wt], c5_helper_parse⟩,
        by norm_num, rfl⟩
  · exact (c5_length_check (read_lrc_lines ["[01:00.00] la"]) [((132 : ℚ), "word")]
      [] true 5 [] 0 0).2 rfl

/-- C5 (counterexample): with a last word at 6000 s the formatted time
`100:00.00` does not re-parse (three-digit minutes), so merge *succeeds*
without force although the last word's time exceeds the last tag (60 s) by
far more than the tolerance — refuting the claim's "exactly when". -/
theorem c5_counterexample :
    last_lrc_time (read_lrc_lines ["[01:00.00] la"]) = some 60
    ∧ (positions_to_times (normalize_tempo []) [((12000 : ℚ), "word")]).map
        Prod.fst = [(6000 : ℚ)]
    ∧ (6000 : ℚ) - 60 > 5
    ∧ merge_enhanced_lrc (read_lrc_lines ["[01:00.00] la"]) [((12000 : ℚ), "word")]
        [] false 5 [] = Except.ok ["[01:00.00] <100:00.00>la"] := by
  have h1 : positions_to_times (normalize_tempo []) [((12000 : ℚ), "word")]
      = [((6000 : ℚ), "word")] := by
    norm_num [positions_to_times, normalize_tempo, sort_tempo, List.insertionSort,
      ptt_go, ptt_step, ptt_advance]
  have h2 : format_timecode 6000 = "100:00.00" := by
    norm_num [format_timecode, py_round, pad2]
    decide
  have hwt : (positions_to_times (normalize_tempo []) [((12000 : ℚ), "word")]).map
      (fun p => (format_timecode p.1, p.2)) = [("100:00.00", "word")] := by
    rw [h1]
    simp [h2]
  have hr : read_lrc_lines ["[01:00.00] la"] = [("[01:00.00]", "la")] := by decide
  have hcheck : length_check [("[01:00.00]", "la")] [("100:00.00", "word")] false 5
      = Except.ok () := by
    have hlast : last_lrc_time [("[01:00.00]", "la")] = some 60 := by
      norm_num [last_lrc_time, c5_helper_parse_sixty,
        show ("[01:00.00]" : String) ≠ "" from by decide]
    have hnoparse : parse_time_tag ("[" ++ "100:00.00" ++ "]") = none := by decide
    have hnoparse2 : parse_time_tag "[100:00.00]" = none := by decide
    unfold length_check
    simp [hlast, hnoparse, hnoparse2]
  have halign : align_lines [("100:00.00", "word")] [("[01:00.00]", "la")]
      = ["[01:00.00] <100:00.00>la"] := by decide
  refine ⟨c5_helper_last, by rw [h1]; rfl, by norm_num, ?_⟩
  rw [hr]
  unfold merge_enhanced_lrc
  simp only [hwt, hcheck, halign, List.filter_nil, List.nil_append]

/-! ### C2 -/

theorem enhance_tokens_eq_spec (ts : List String) (ws : List (String × String)) :
    enhance_tokens ws ts
      = (alignment_policy_spec ws (ts.filter (fun t => t ≠ "")),
         spec_leftover ws (ts.filter (fun t => t ≠ ""))) := by
  induction ts generalizing ws with
  | nil => simp [enhance_tokens, alignment_policy_spec, spec_leftover]
  | cons t ts ih =>
    by_cases ht : t = ""
    · subst ht
      simp only [enhance_tokens, if_pos rfl, List.filter_cons]
      simpa using ih ws
    · rw [List.filter_cons, if_pos (by simpa using ht)]
      by_cases hn : normalize_token t = ""
      · simp only [enhance_tokens, if_neg ht, if_pos hn, alignment_policy_spec,
          spec_leftover, ih ws]
      · cases ws with
        | nil =>
          simp only [enhance_tokens, if_neg ht, if_neg hn, alignment_policy_spec,
            spec_leftover, ih []]
        | cons w ws =>
          simp only [enhance_tokens, if_neg ht, if_neg hn, alignment_policy_spec,
            spec_leftover, ih ws]

theorem alignment_policy_spec_append (xs ys : List String)
    (ws : List (String × String)) :
    alignment_policy_spec ws (xs ++ ys)
      = alignment_policy_spec ws xs
          ++ alignment_policy_spec (spec_leftover ws xs) ys
    ∧ spec_leftover ws (xs ++ ys) = spec_leftover (spec_leftover ws xs) ys := by
  induction xs generalizing ws with
  | nil => simp [alignment_policy_spec, spec_leftover]
  | cons x xs ih =>
    by_cases hn : normalize_token x = ""
    · simp only [List.cons_append, alignment_policy_spec, spec_leftover, if_pos hn, List.append_eq]
      exact ⟨by rw [(ih ws).1], by rw [(ih ws).2]⟩
    · cases ws with
      | nil =>
        simp only [List.cons_append, alignment_policy_spec, spec_leftover, if_neg hn, List.append_eq]
        exact ⟨by rw [(ih []).1], by rw [(ih []).2]⟩
      | cons w ws =>
        simp only [List.cons_append, alignment_policy_spec, spec_leftover, if_neg hn, List.append_eq]
        exact ⟨by rw [(ih ws).1], by rw [(ih ws).2]⟩

/-- C2: the aligner's enhanced token stream equals the spec-side purely
positional policy applied to the stream of non-empty tokens scanned
top-to-bottom, left-to-right: the Nth alignable token (non-empty normalized
form) is prefixed with the Nth word's formatted time independently of any
textual relationship, normalized-empty tokens pass through with no sub-tag,
after the words run out every remaining token passes through unchanged. -/
theorem c2_positional_alignment (lrc_lines : List (String × String))
    (word_timings : List (ℚ × String)) (tempo_events : List TempoEvent) :
    enhanced_token_stream
        ((positions_to_times (normalize_tempo tempo_events) word_timings).map
          (fun p => (format_timecode p.1, p.2))) lrc_lines
      = alignment_policy_spec
          ((positions_to_times (normalize_tempo tempo_events) word_timings).map
            (fun p => (format_timecode p.1, p.2)))
          (token_stream lrc_lines) := by
  generalize ((positions_to_times (normalize_tempo tempo_events) word_timings).map
    (fun p => (format_timecode p.1, p.2))) = ws
  induction lrc_lines generalizing ws with
  | nil => simp [enhanced_token_stream, token_stream, alignment_policy_spec]
  | cons l rest ih =>
    obtain ⟨tag, text⟩ := l
    by_cases ht : text = ""
    · subst ht
      simp only [enhanced_token_stream, if_pos rfl, token_stream, List.flatMap_cons]
      rw [ih ws]
      simp [token_stream, show py_split_space "" = [""] from by decide]
    · simp only [enhanced_token_stream, if_neg ht, token_stream, List.flatMap_cons]
      rw [enhance_tokens_eq_spec]
      dsimp only
      rw [ih]
      rw [(alignment_policy_spec_append ((py_split_space text).filter (fun t => t ≠ ""))
        (rest.flatMap (fun l => (py_split_space l.2).filter (fun t => t ≠ ""))) ws).1]
      rfl

/-! ### C4 -/

theorem split_space_data_ne_nil (cs : List Char) : split_space_data cs ≠ [] := by
  induction cs with
  | nil => simp [split_space_data]
  | cons c cs ih =>
    by_cases h : c = ' '
    · simp [split_space_data, h]
    · simp only [split_space_data, if_neg h]
      rcases hs : split_space_data cs with _ | ⟨t, ts⟩
      · simp
      · simp

theorem join_space_data_singleton (t : List Char) : join_space_data [t] = t := rfl

theorem join_space_data_cons_cons (t u : List Char) (us : List (List Char)) :
    join_space_data (t :: u :: us) = t ++ ' ' :: join_space_data (u :: us) := rfl

theorem join_split_space (cs : List Char) :
    join_space_data (split_space_data cs) = cs := by
  induction cs with
  | nil => simp [split_space_data, join_space_data]
  | cons c cs ih =>
    by_cases h : c = ' '
    · subst h
      simp only [split_space_data, if_true, if_pos trivial]
      rcases hs : split_space_data cs with _ | ⟨t, ts⟩
      · exact absurd hs (split_space_data_ne_nil cs)
      · rw [hs] at ih
        rw [join_space_data_cons_cons, ih]
        simp
    · simp only [split_space_data, if_neg h]
      rcases hs : split_space_data cs with _ | ⟨t, ts⟩
      · exact absurd hs (split_space_data_ne_nil cs)
      · rw [hs] at ih
        rcases ts with _ | ⟨u, us⟩
        · rw [join_space_data_singleton]
          rw [join_space_data_singleton] at ih
          rw [ih]
        · rw [join_space_data_cons_cons] at ih ⊢
          simp only [List.cons_append]
          rw [ih]

theorem join_space_data_getLast (ps : List (List Char)) (p : List Char)
    (hlast : ps.getLast? = some p) (hne : p ≠ []) :
    (join_space_data ps).getLast? = p.getLast? := by
  induction ps with
  | nil => simp at hlast
  | cons q ps ih =>
    rcases ps with _ | ⟨r, rs⟩
    · simp at hlast
      subst hlast
      rfl
    · rw [List.getLast?_cons_cons] at hlast
      have hj : (join_space_data (r :: rs)).getLast? = p.getLast? := ih hlast
      obtain ⟨c, hc⟩ := Option.isSome_iff_exists.mp (List.getLast?_isSome.mpr hne)
      rw [join_space_data_cons_cons, List.getLast?_append]
      rcases hJ : join_space_data (r :: rs) with _ | ⟨d, ds⟩
      · rw [hJ] at hj
        rw [hc] at hj
        simp at hj
      · rw [hJ] at hj
        rw [List.getLast?_cons_cons, hj, hc]
        simp

theorem string_data_eq_nil_iff (s : String) : s.data = [] ↔ s = "" := by
  constructor
  · intro h
    apply String.ext
    simpa using h
  · intro h
    rw [h]

theorem cons_getLast?_of_ne_nil {α : Type} (a : α) (l : List α) (h : l ≠ []) :
    (a :: l).getLast? = l.getLast? := by
  rcases l with _ | ⟨b, bs⟩
  · exact absurd rfl h
  · exact List.getLast?_cons_cons

theorem alignment_policy_spec_length (ws : List (String × String)) (ts : List String) :
    (alignment_policy_spec ws ts).length = ts.length := by
  induction ts generalizing ws with
  | nil => rfl
  | cons x xs ih =>
    by_cases hn : normalize_token x = ""
    · simp [alignment_policy_spec, if_pos hn, ih]
    · cases ws with
      | nil => simp [alignment_policy_spec, if_neg hn, ih]
      | cons w ws => simp [alignment_policy_spec, if_neg hn, ih]

theorem alignment_policy_spec_cons (ws : List (String × String)) (x : String)
    (xs : List String) :
    alignment_policy_spec ws (x :: xs)
      = if normalize_token x = "" then x :: alignment_policy_spec ws xs
        else
          match ws with
          | [] => x :: alignment_policy_spec [] xs
          | (word_time, _) :: ws2 =>
            ("<" ++ word_time ++ ">" ++ x) :: alignment_policy_spec ws2 xs := rfl

theorem alignment_policy_spec_getLast (ws : List (String × String))
    (ts : List String) (t : String) (h : ts.getLast? = some t) (ht : t ≠ "") :
    ∃ u, (alignment_policy_spec ws ts).getLast? = some u
      ∧ u.data.getLast? = t.data.getLast? := by
  induction ts generalizing ws with
  | nil => simp at h
  | cons x xs ih =>
    rcases xs with _ | ⟨y, ys⟩
    · simp only [List.getLast?_singleton, Option.some.injEq] at h
      subst h
      by_cases hn : normalize_token x = ""
      · exact ⟨x, by rw [alignment_policy_spec_cons, if_pos hn]; rfl, rfl⟩
      · cases ws with
        | nil => exact ⟨x, by rw [alignment_policy_spec_cons, if_neg hn]; rfl, rfl⟩
        | cons w ws =>
          refine ⟨"<" ++ w.1 ++ ">" ++ x, by rw [alignment_policy_spec_cons, if_neg hn]; rfl, ?_⟩
          rw [string_data_append, List.getLast?_append]
          have hx : x.data ≠ [] := fun h0 => ht ((string_data_eq_nil_iff x).mp h0)
          obtain ⟨c, hc⟩ := Option.isSome_iff_exists.mp (List.getLast?_isSome.mpr hx)
          simp [hc]
    · rw [List.getLast?_cons_cons] at h
      have hlen : ∀ ws2 : List (String × String),
          alignment_policy_spec ws2 (y :: ys) ≠ [] := by
        intro ws2 h0
        have := alignment_policy_spec_length ws2 (y :: ys)
        rw [h0] at this
        simp at this
      by_cases hn : normalize_token x = ""
      · obtain ⟨u, hu, hud⟩ := ih ws h
        refine ⟨u, ?_, hud⟩
        rw [alignment_policy_spec_cons, if_pos hn,
          cons_getLast?_of_ne_nil _ _ (hlen ws), hu]
      · cases ws with
        | nil =>
          obtain ⟨u, hu, hud⟩ := ih [] h
          refine ⟨u, ?_, hud⟩
          rw [alignment_policy_spec_cons, if_neg hn]
          exact (cons_getLast?_of_ne_nil _ _ (hlen [])).trans hu
        | cons w ws =>
          obtain ⟨u, hu, hud⟩ := ih ws h
          refine ⟨u, ?_, hud⟩
          rw [alignment_policy_spec_cons, if_neg hn]
          exact (cons_getLast?_of_ne_nil _ _ (hlen ws)).trans hu

theorem py_rstrip_eq_self (s : String) (c : Char) (h : s.data.getLast? = some c)
    (hc : c.isWhitespace = false) : py_rstrip s = s := by
  rcases List.eq_nil_or_concat s.data with h0 | ⟨init, b, hcat⟩
  · rw [h0] at h
    simp at h
  · have hb : b = c := by
      rw [hcat] at h
      simpa [List.concat_eq_append] using h
    subst hb
    apply String.ext
    show ((s.data.reverse.dropWhile Char.isWhitespace).reverse) = s.data
    rw [hcat]
    simp only [List.concat_eq_append, List.reverse_append, List.reverse_cons,
      List.reverse_nil, List.nil_append, List.cons_append, List.dropWhile_cons]
    rw [hc]
    simp

theorem py_join_space_data (ts : List String) :
    (py_join_space ts).data = join_space_data (ts.map String.data) := rfl

theorem content_line_last_char (text : String) (c : Char)
    (hlast : text.data.getLast? = some c)
    (htoks : ∀ tok ∈ py_split_space text, tok ≠ "") :
    ∃ lastTok, (py_split_space text).getLast? = some lastTok
      ∧ lastTok.data.getLast? = some c := by
  obtain ⟨lastPiece, hp⟩ := Option.isSome_iff_exists.mp
    (List.getLast?_isSome.mpr (split_space_data_ne_nil text.data))
  refine ⟨String.mk lastPiece, ?_, ?_⟩
  · unfold py_split_space
    rw [List.getLast?_map, hp]
    rfl
  · have hmem : String.mk lastPiece ∈ py_split_space text := by
      unfold py_split_space
      exact List.mem_map_of_mem _ (List.mem_of_getLast?_eq_some hp)
    have hne : lastPiece ≠ [] := by
      intro h0
      exact htoks _ hmem (by rw [h0])
    have hj := join_space_data_getLast (split_space_data text.data) lastPiece hp hne
    rw [join_split_space] at hj
    rw [hj] at hlast
    exact hlast

theorem aligned_line_rstrip (ws : List (String × String)) (tag text : String)
    (c : Char) (hlast : text.data.getLast? = some c) (hc : c.isWhitespace = false)
    (htoks : ∀ tok ∈ py_split_space text, tok ≠ "") :
    py_rstrip (tag ++ " " ++
        py_join_space (alignment_policy_spec ws (py_split_space text)))
      = tag ++ " " ++ py_join_space (alignment_policy_spec ws (py_split_space text)) := by
  obtain ⟨lastTok, hlt, hltc⟩ := content_line_last_char text c hlast htoks
  have hltne : lastTok ≠ "" := htoks _ (List.mem_of_getLast?_eq_some hlt)
  obtain ⟨u, hu, hud⟩ := alignment_policy_spec_getLast ws (py_split_space text)
    lastTok hlt hltne
  rw [hltc] at hud
  have hune : u.data ≠ [] := by
    intro h0
    rw [h0] at hud
    simp at hud
  have hjoin : (py_join_space (alignment_policy_spec ws (py_split_space text))).data.getLast?
      = some c := by
    rw [py_join_space_data]
    rw [join_space_data_getLast ((alignment_policy_spec ws (py_split_space text)).map
      String.data) u.data (by rw [List.getLast?_map, hu]; rfl) hune]
    exact hud
  apply py_rstrip_eq_self _ c _ hc
  rw [string_data_append, List.getLast?_append, hjoin]
  rfl

theorem wf_line_content (tag text : String) (h : wf_line (tag, text) = true)
    (ht : text ≠ "") :
    (∀ tok ∈ py_split_space text, tok ≠ "") ∧
    ∃ c, text.data.getLast? = some c ∧ c.isWhitespace = false := by
  simp only [wf_line, Bool.or_eq_true, Bool.and_eq_true, decide_eq_true_eq,
    List.all_eq_true] at h
  rcases h with h1 | ⟨ha, hm⟩
  · exact absurd h1 ht
  · refine ⟨ha, ?_⟩
    rcases hgl : text.data.getLast? with _ | c
    · rw [hgl] at hm
      simp at hm
    · rw [hgl] at hm
      exact ⟨c, rfl, by simpa using hm⟩

theorem align_lines_cons (word_times : List (String × String)) (tag text : String)
    (rest : List (String × String)) :
    align_lines word_times ((tag, text) :: rest)
      = if text = "" then tag :: align_lines word_times rest
        else
          match enhance_tokens word_times (py_split_space text) with
          | (out, ws) =>
            py_rstrip (tag ++ " " ++ py_join_space out) :: align_lines ws rest := rfl

theorem align_render_spec_cons (word_times : List (String × String))
    (tag text : String) (rest : List (String × String)) :
    align_render_spec word_times ((tag, text) :: rest)
      = if text = "" then tag :: align_render_spec word_times rest
        else
          (tag ++ " " ++ py_join_space (alignment_policy_spec word_times
            (py_split_space text)))
            :: align_render_spec (spec_leftover word_times (py_split_space text)) rest := rfl

theorem align_lines_render (word_times : List (String × String))
    (lines : List (String × String)) (h : ∀ l ∈ lines, wf_line l = true) :
    align_lines word_times lines = align_render_spec word_times lines := by
  induction lines generalizing word_times with
  | nil => rfl
  | cons l rest ih =>
    obtain ⟨tag, text⟩ := l
    have hhd := h (tag, text) (List.mem_cons_self _ _)
    have htl : ∀ l2 ∈ rest, wf_line l2 = true :=
      fun l2 hl => h l2 (List.mem_cons_of_mem _ hl)
    rw [align_lines_cons, align_render_spec_cons]
    by_cases ht : text = ""
    · rw [if_pos ht, if_pos ht, ih _ htl]
    · rw [if_neg ht, if_neg ht]
      obtain ⟨htoks, c, hgl, hcw⟩ := wf_line_content tag text hhd ht
      have hfil : (py_split_space text).filter (fun t => t ≠ "") = py_split_space text :=
        List.filter_eq_self.mpr (fun a ha => decide_eq_true (htoks a ha))
      rw [enhance_tokens_eq_spec, hfil]
      dsimp only
      rw [aligned_line_rstrip word_times tag text c hgl hcw htoks]
      rw [ih _ htl]

theorem align_lines_length (word_times : List (String × String))
    (lines : List (String × String)) :
    (align_lines word_times lines).length = lines.length := by
  induction lines generalizing word_times with
  | nil => rfl
  | cons l rest ih =>
    obtain ⟨tag, text⟩ := l
    rw [align_lines_cons]
    by_cases ht : text = ""
    · rw [if_pos ht]
      simp [ih]
    · rw [if_neg ht]
      rcases he : enhance_tokens word_times (py_split_space text) with ⟨out, ws⟩
      simp [ih]

theorem py_join_split_space (s : String) : py_join_space (py_split_space s) = s := by
  apply String.ext
  unfold py_join_space py_split_space
  rw [List.map_map]
  have : (String.data ∘ String.mk) = id := rfl
  rw [this, List.map_id]
  rw [join_split_space]

/-- C4 (amended): the aligner emits exactly one output line per input line
in input order (first conjunct, unconditionally); for well-formed lines —
empty, or with non-empty single-space-separated tokens and no trailing
whitespace — each output content line is the line's time tag, one space, and
its text with each alignable token prefixed by its `<mm:ss.cc>` sub-tag
(second conjunct; by the third conjunct the token join *is* the original
text).  Hence a tagged well-formed line is preserved verbatim up to the
inserted sub-tags, while an untagged line still gets a leading space (its
empty tag plus the separator) and its alignable tokens are still annotated,
as `c4_counterexample` shows. -/
theorem c4_line_render :
    (∀ (word_times : List (String × String)) (lines : List (String × String)),
      (align_lines word_times lines).length = lines.length)
    ∧ (∀ (word_times : List (String × String)) (lines : List (String × String)),
        (∀ l ∈ lines, wf_line l = true) →
        align_lines word_times lines = align_render_spec word_times lines)
    ∧ (∀ s : String, py_join_space (py_split_space s) = s) :=
  ⟨align_lines_length, align_lines_render, py_join_split_space⟩

/-- Witness for `c4_line_render` on a concrete tagged line with two words:
the line is preserved except for the two inserted sub-tags. -/
theorem c4_witness :
    (∀ l ∈ [("[00:10.00]", "Hello world")], wf_line l = true)
    ∧ align_lines [("00:10.00", "Hello"), ("00:10.50", "world")]
        [("[00:10.00]", "Hello world")]
      = align_render_spec [("00:10.00", "Hello"), ("00:10.50", "world")]
        [("[00:10.00]", "Hello world")]
    ∧ align_lines [("00:10.00", "Hello"), ("00:10.50", "world")]
        [("[00:10.00]", "Hello world")]
      = ["[00:10.00] <00:10.00>Hello <00:10.50>world"] := by
  refine ⟨by decide, c4_line_render.2.1 _ _ (by decide), by decide⟩

/-- C4 (counterexample): the untagged input line `"hello  world"` is *not*
kept verbatim — the output line is `" hello world"`: a leading space is
introduced by `f"{time_tag} {text}"` with an empty tag, and the empty token
from the double space is dropped. -/
theorem c4_counterexample :
    (merge_enhanced_lrc (read_lrc_lines ["hello  world"]) [] [] false 5 []).toOption
      = some [" hello world"]
    ∧ " hello world" ≠ "hello  world" := by
  constructor
  · decide
  · decide
